import Mathlib

/-!
Verification development for the condition-rendering core of `kubectl-cond`
(`main.go`): condition extraction, polarity normalization, ranking, and
message wrapping/formatting.

Modelling conventions:
* Go strings are Lean `String` (for identifiers) or `List Char` (for text
  that is built up character by character, as in `wrapString`).
* `metav1.ConditionStatus` is a Go string type, so `status` is a `String`.
* `time.Time` values that can appear in a condition (RFC3339 timestamps in
  UTC form, plus Go's zero `time.Time`) are modelled as a calendar tuple
  `DateTime`; `time.Time.After` on such values is lexicographic comparison
  of the fields.
* External libraries that only produce display text (`fatih/color`,
  `go-humanize`, RFC3339 re-formatting of an already-parsed time) are
  modelled as function parameters (`RenderEnv`), since the spec treats them
  as external collaborators.
* `sort.Slice` from the Go standard library is embedded faithfully
  (pdqsort, `zsortfunc.go`): mutation of the slice becomes explicit state
  passing of a `List`, and every Go loop becomes a fuel-indexed recursive
  function whose fuel is an overapproximation of the loop's iteration
  count, so that exhausting fuel is unreachable.
-/

namespace KubectlCond

/-- A calendar instant `YYYY-MM-DDThh:mm:ssZ`, the model of the
`time.Time` values reachable in this program (RFC3339 UTC timestamps and
the zero `time.Time`).  Ordering of instants is lexicographic on the
fields. -/
structure DateTime where
  year : Nat
  month : Nat
  day : Nat
  hour : Nat
  minute : Nat
  second : Nat
deriving DecidableEq, Repr, Inhabited

/-- Go's zero `time.Time` (`metav1.Time{}`): January 1, year 1, 00:00:00 UTC. -/
def zeroTime : DateTime := ⟨1, 1, 1, 0, 0, 0⟩

/-- Model of `time.Time.After` for the instants of `DateTime`:
`timeAfter a b = true` iff `a` is strictly later than `b`
(lexicographic comparison of the calendar fields). -/
def timeAfter (a b : DateTime) : Bool :=
  if a.year ≠ b.year then decide (b.year < a.year)
  else if a.month ≠ b.month then decide (b.month < a.month)
  else if a.day ≠ b.day then decide (b.day < a.day)
  else if a.hour ≠ b.hour then decide (b.hour < a.hour)
  else if a.minute ≠ b.minute then decide (b.minute < a.minute)
  else decide (b.second < a.second)

/-- `GenericCondition` (main.go:132-141).  Pointer-typed timestamp fields
become `Option DateTime`; `metav1.ConditionStatus` is a Go string type, so
`status` is a free `String`. -/
structure GenericCondition where
  type_ : String
  status : String
  reason : String
  message : String
  lastUpdateTime : Option DateTime
  lastTransitionTime : Option DateTime
  lastHeartbeatTime : Option DateTime
  observedGeneration : Int
deriving DecidableEq, Repr, Inhabited

/-- The process-wide set of double-negated ("negative polarity") condition
types (main.go:45-60), as the list of names passed to `sets.New`. -/
def negativePolarityNodeConditions : List String :=
  ["MemoryPressure", "DiskPressure", "NetworkUnavailable", "PIDPressure",
   "ReadonlyFilesystem", "KernelDeadlock", "FrequentKubeletRestart",
   "FrequentDockerRestart", "FrequentContainerdRestart",
   "KubeletUnhealthy", "ContainerRuntimeUnhealthy"]

/-- `invertPolarity` (main.go:242-252).  `metav1.ConditionUnknown`,
`metav1.ConditionTrue`, `metav1.ConditionFalse` are the strings
`"Unknown"`, `"True"`, `"False"`. -/
def invertPolarity (condType : String) (status : String) : String :=
  if status = "Unknown" ∨ ¬ (negativePolarityNodeConditions.contains condType) then
    status
  else if status = "True" then "False" else "True"

/-- The `typePriority` map of `byCondition` (main.go:288-291); a missing
key yields Go's zero value `0`. -/
def typePriority (t : String) : Int :=
  if t = "Ready" then -2 else if t = "Succeeded" then -1 else 0

/-- The `statusOrder` map of `byCondition` (main.go:300-304); a missing
key (any status other than the three enum values) yields Go's zero
value `0`. -/
def statusOrder (s : String) : Int :=
  if s = "False" then 0 else if s = "Unknown" then 1 else if s = "True" then 2 else 0

/-- The freshness timestamp of rule 3 of `byCondition` (main.go:314-315):
`ptr.Deref(c.LastUpdateTime, ptr.Deref(c.LastTransitionTime, metav1.Time{})).Time`. -/
def freshTime (c : GenericCondition) : DateTime :=
  c.lastUpdateTime.getD (c.lastTransitionTime.getD zeroTime)

/-- The three-tier comparator `byCondition` (main.go:286-317). -/
def byCondition (i j : GenericCondition) : Bool :=
  let priI := typePriority i.type_
  let priJ := typePriority j.type_
  if priI ≠ priJ then decide (priI < priJ)
  else
    let iStatus := invertPolarity i.type_ i.status
    let jStatus := invertPolarity j.type_ j.status
    if iStatus ≠ jStatus then decide (statusOrder iStatus < statusOrder jStatus)
    else timeAfter (freshTime i) (freshTime j)

/-- UTF-8 byte length of a character list: what `strings.Builder.Len`
reports after the characters have been written with `WriteRune`. -/
def utf8Len (l : List Char) : Nat := (l.map Char.utf8Size).sum

/-- The character-consuming loop of `wrapString` (main.go:328-336) plus
its final flush (main.go:338-340).  `line` is the pending line buffer;
the result is the text appended to `result` from this point on. -/
def wrapLoop (n : Nat) (colorize : List Char → List Char) :
    List Char → List Char → List Char
  | line, [] => if utf8Len line > 0 then colorize line else []
  | line, c :: rest =>
    let line' := line ++ [c]
    if n ≤ utf8Len line' ∨ c = '\n' then
      colorize line' ++ '\n' :: wrapLoop n colorize [] rest
    else
      wrapLoop n colorize line' rest

/-- `wrapString` (main.go:320-343).  Note that the flush condition
`line.Len() >= n` measures the UTF-8 byte length of the pending line, not
its rune count. -/
def wrapString (input : List Char) (n : Int) (colorize : List Char → List Char) :
    List Char :=
  if n ≤ 0 then input else wrapLoop n.toNat colorize [] input

/-- The display-only external collaborators used by
`formatConditionDetails` (main.go:254-284): the `bold` and `gray` color
wrappers from `fatih/color`, the relative-time phrase
`humanize.RelTime(t, time.Now(), "ago", "from now")` (which closes over
the wall clock), and RFC3339 re-formatting of a parsed time in the local
zone.  The spec treats all of these as out of scope, so they are
parameters of the formatter model. -/
structure RenderEnv where
  bold : List Char → List Char
  gray : List Char → List Char
  relTime : DateTime → List Char
  fmtTime : DateTime → List Char

/-- `strings.TrimSuffix(detail, "\n")`: drop one trailing newline. -/
def trimSuffixNewline (l : List Char) : List Char :=
  if l.getLast? = some '\n' then l.dropLast else l

/-- The `expressTime` closure of `formatConditionDetails` (main.go:265-270). -/
def expressTime (env : RenderEnv) (t : DateTime) : List Char :=
  env.relTime t ++ [' '] ++ env.gray ('(' :: env.fmtTime t ++ [')'])

/-- `formatConditionDetails` (main.go:254-284). -/
def formatConditionDetails (env : RenderEnv) (colorize : List Char → List Char)
    (cond : GenericCondition) : List Char :=
  let detail : List Char :=
    if cond.reason ≠ "" then colorize (env.bold cond.reason.toList) ++ ['\n'] else []
  let detail :=
    if cond.message ≠ "" then
      detail ++ colorize (wrapString cond.message.toList 80 colorize) ++ ['\n']
    else detail
  let detail :=
    match cond.lastTransitionTime with
    | some t => detail ++ "Last Transition: ".toList ++ expressTime env t ++ ['\n']
    | none => detail
  let detail :=
    match cond.lastUpdateTime with
    | some t => detail ++ "Last Update: ".toList ++ expressTime env t ++ ['\n']
    | none => detail
  let detail :=
    match cond.lastHeartbeatTime with
    | some t => detail ++ "Last Heartbeat: ".toList ++ expressTime env t ++ ['\n']
    | none => detail
  trimSuffixNewline detail

/-! ### Extraction (`printObject`, main.go:156-180)

The unstructured object (`map[string]any` produced by JSON/YAML
decoding) is modelled by `JValue`. -/

/-- A decoded generic JSON value, the model of Go's `interface{}` values
inside an `unstructured.Unstructured` object.  Numbers are restricted to
integers, which covers every value relevant to condition decoding. -/
inductive JValue where
  | str (s : String)
  | num (n : Int)
  | bool (b : Bool)
  | null
  | arr (elems : List JValue)
  | obj (fields : List (String × JValue))
deriving Inhabited

/-- Key lookup in a JSON object (`m[field]`); keys are assumed unique, as
they are in a decoded JSON object. -/
def lookupJ : List (String × JValue) → String → Option JValue
  | [], _ => none
  | (k, v) :: rest, key => if k = key then some v else lookupJ rest key

/-- Result of `unstructured.NestedFieldNoCopy`: the value and
`found = true`, or `found = false`, or a non-nil accessor error. -/
inductive NestedFieldResult where
  | found (v : JValue)
  | notFound
  | err

/-- `unstructured.NestedFieldNoCopy`: walk the field path; a `nil` value
stops with not-found, a missing key stops with not-found, a non-map
intermediate value is an accessor error. -/
def nestedFieldNoCopy : JValue → List String → NestedFieldResult
  | v, [] => .found v
  | .null, _ :: _ => .notFound
  | .obj fs, f :: rest =>
    match lookupJ fs f with
    | none => .notFound
    | some v => nestedFieldNoCopy v rest
  | _, _ :: _ => .err

/-- Result of `unstructured.NestedSlice`: the slice and `found = true`,
or `found = false`, or a non-nil error (`printObject` checks the error
before `found`, so the two error sources need not be distinguished). -/
inductive NestedSliceResult where
  | found (elems : List JValue)
  | notFound
  | err

/-- `unstructured.NestedSlice`: `NestedFieldNoCopy`, then require the
value to be a slice (a non-slice value is an accessor error). -/
def nestedSlice (obj : List (String × JValue)) (fields : List String) :
    NestedSliceResult :=
  match nestedFieldNoCopy (.obj obj) fields with
  | .notFound => .notFound
  | .err => .err
  | .found v =>
    match v with
    | .arr elems => .found elems
    | _ => .err

/-- Fixed-width decimal digit run. -/
def parseNatFixed (cs : List Char) : Option Nat :=
  if cs.all (fun c => '0' ≤ c ∧ c ≤ '9') then
    some (cs.foldl (fun a c => a * 10 + (c.toNat - '0'.toNat)) 0)
  else none

def isLeapYear (y : Nat) : Bool := (y % 4 = 0 ∧ y % 100 ≠ 0) ∨ y % 400 = 0

def daysInMonth (y m : Nat) : Nat :=
  if m = 2 then (if isLeapYear y then 29 else 28)
  else if m = 4 ∨ m = 6 ∨ m = 9 ∨ m = 11 then 30
  else 31

/-- Model of `time.Parse(time.RFC3339, s)` as used by
`metav1.Time.UnmarshalJSON`, restricted to the canonical UTC form
`YYYY-MM-DDThh:mm:ssZ` (fractional seconds and numeric zone offsets are
outside the modelled fragment); any other string fails to parse. -/
def parseRFC3339 (s : String) : Option DateTime :=
  match s.toList with
  | [y1, y2, y3, y4, '-', m1, m2, '-', d1, d2, 'T',
     h1, h2, ':', mi1, mi2, ':', s1, s2, 'Z'] => do
    let y ← parseNatFixed [y1, y2, y3, y4]
    let mo ← parseNatFixed [m1, m2]
    let d ← parseNatFixed [d1, d2]
    let h ← parseNatFixed [h1, h2]
    let mi ← parseNatFixed [mi1, mi2]
    let se ← parseNatFixed [s1, s2]
    if 1 ≤ mo ∧ mo ≤ 12 ∧ 1 ≤ d ∧ d ≤ daysInMonth y mo ∧
       h ≤ 23 ∧ mi ≤ 59 ∧ se ≤ 59 then
      pure ⟨y, mo, d, h, mi, se⟩
    else none
  | _ => none

/-- `encoding/json` unmarshalling of one JSON value into a Go
string-typed struct field (`Type`, `Status`, `Reason`, `Message`): a
missing key or JSON `null` leaves the zero value `""`; any JSON string is
accepted unchanged; any other value is an unmarshal type error. -/
def decodeStringField (fields : List (String × JValue)) (key : String) :
    Option String :=
  match lookupJ fields key with
  | none => some ""
  | some .null => some ""
  | some (.str s) => some s
  | some _ => none

/-- `encoding/json` unmarshalling into a `*metav1.Time` field: a missing
key or JSON `null` leaves `nil`; a JSON string must parse as RFC3339
(`metav1.Time.UnmarshalJSON`); any other value is an error. -/
def decodeTimeField (fields : List (String × JValue)) (key : String) :
    Option (Option DateTime) :=
  match lookupJ fields key with
  | none => some none
  | some .null => some none
  | some (.str s) =>
    match parseRFC3339 s with
    | some t => some (some t)
    | none => none
  | some _ => none

/-- `encoding/json` unmarshalling into the `int64` field
`ObservedGeneration`: missing or `null` leaves `0`; a JSON number is
accepted; any other value is an error. -/
def decodeIntField (fields : List (String × JValue)) (key : String) :
    Option Int :=
  match lookupJ fields key with
  | none => some 0
  | some .null => some 0
  | some (.num n) => some n
  | some _ => none

/-- `json.Marshal` of a condition map followed by `json.Unmarshal` into
`GenericCondition` (main.go:171-178). -/
def decodeGenericCondition (fields : List (String × JValue)) :
    Option GenericCondition := do
  let t ← decodeStringField fields "type"
  let s ← decodeStringField fields "status"
  let r ← decodeStringField fields "reason"
  let m ← decodeStringField fields "message"
  let lut ← decodeTimeField fields "lastUpdateTime"
  let ltt ← decodeTimeField fields "lastTransitionTime"
  let lht ← decodeTimeField fields "lastHeartbeatTime"
  let og ← decodeIntField fields "observedGeneration"
  pure ⟨t, s, r, m, lut, ltt, lht, og⟩

/-- Decoding of one element of the conditions slice: the element must be
a JSON object (`map[string]any`), then decode as `GenericCondition`. -/
def decodeElem (v : JValue) : Option GenericCondition :=
  match v with
  | .obj fields => decodeGenericCondition fields
  | _ => none

/-- The distinct failure exits of the extraction part of `printObject`
(main.go:156-180): the wrapped `NestedSlice` error ("failed to extract
conditions"), the "no status.conditions[] found" error, and the
per-element "failed to convert/unmarshal condition#i" errors. -/
inductive ExtractError where
  | accessorError
  | conditionsNotFound
  | malformedCondition (index : Nat)
deriving DecidableEq, Repr

/-- The decoding loop of `printObject` (main.go:164-180), with `i` the
index of the first element of the remaining list. -/
def decodeLoop : List JValue → Nat → Except ExtractError (List GenericCondition)
  | [], _ => .ok []
  | c :: rest, i =>
    match decodeElem c with
    | none => .error (.malformedCondition i)
    | some gc =>
      match decodeLoop rest (i + 1) with
      | .error e => .error e
      | .ok gcs => .ok (gc :: gcs)

/-- Specification-side companion of `decodeLoop`: decode every element,
or `none` if any element fails; used to state the extraction contract. -/
def decodeAll : List JValue → Option (List GenericCondition)
  | [] => some []
  | c :: rest =>
    match decodeElem c with
    | none => none
    | some gc =>
      match decodeAll rest with
      | none => none
      | some l => some (gc :: l)

/-- The extraction part of `printObject` (main.go:156-180): locate
`status.conditions`, then decode every element in order. -/
def extractConditions (obj : List (String × JValue)) :
    Except ExtractError (List GenericCondition) :=
  match nestedSlice obj ["status", "conditions"] with
  | .err => .error .accessorError
  | .notFound => .error .conditionsNotFound
  | .found elems => decodeLoop elems 0

/-! ### The Go standard library sort used at main.go:182-184

`sort.Slice(condElems, ...)` is pdqsort (`sort/zsortfunc.go`).  The slice
is modelled as a `List α`; `data.Swap` is `swapL`, `data.Less` is
`lessAt` (the closure reads the current state of the slice).  Every Go
loop is a fuel-indexed recursion; each call site passes fuel that
overapproximates the loop's iteration count, so the fuel-exhausted
branches are unreachable. -/

section GoSort

variable {α : Type} [Inhabited α]

/-- Read `slice[i]` (indices produced by the algorithm are always in
bounds; out-of-bounds reads return `default` and are unreachable). -/
def arrGet (arr : List α) (i : Int) : α := arr.getD i.toNat default

/-- `data.Swap(i, j)`. -/
def swapL (arr : List α) (i j : Int) : List α :=
  if 0 ≤ i ∧ 0 ≤ j ∧ i < (arr.length : Int) ∧ j < (arr.length : Int) then
    (arr.set i.toNat (arrGet arr j)).set j.toNat (arrGet arr i)
  else arr

/-- `data.Less(i, j)` for the closure `byCondition(x[i], x[j])`. -/
def lessAt (lt : α → α → Bool) (arr : List α) (i j : Int) : Bool :=
  lt (arrGet arr i) (arrGet arr j)

/-- Inner loop of `insertionSort_func`:
`for j := i; j > a && less(j, j-1); j-- { swap(j, j-1) }`. -/
def insSortInner (lt : α → α → Bool) : Nat → List α → Int → Int → List α
  | 0, arr, _, _ => arr
  | fuel + 1, arr, a, j =>
    if a < j ∧ lessAt lt arr j (j - 1) then
      insSortInner lt fuel (swapL arr j (j - 1)) a (j - 1)
    else arr

/-- Outer loop of `insertionSort_func`: `for i := a + 1; i < b; i++`. -/
def insSortOuter (lt : α → α → Bool) : Nat → List α → Int → Int → Int → List α
  | 0, arr, _, _, _ => arr
  | fuel + 1, arr, a, b, i =>
    if i < b then
      insSortOuter lt fuel (insSortInner lt (i - a).toNat arr a i) a b (i + 1)
    else arr

/-- `insertionSort_func(data, a, b)`. -/
def insertionSortGo (lt : α → α → Bool) (arr : List α) (a b : Int) : List α :=
  insSortOuter lt (b - a).toNat arr a b (a + 1)

/-- `siftDown_func(data, lo, hi, first)` (the loop; `root` starts at `lo`). -/
def siftDownGo (lt : α → α → Bool) : Nat → List α → Int → Int → Int → List α
  | 0, arr, _, _, _ => arr
  | fuel + 1, arr, root, hi, first =>
    let child := 2 * root + 1
    if child ≥ hi then arr
    else
      let child :=
        if child + 1 < hi ∧ lessAt lt arr (first + child) (first + child + 1) then
          child + 1
        else child
      if ¬ lessAt lt arr (first + root) (first + child) then arr
      else siftDownGo lt fuel (swapL arr (first + root) (first + child)) child hi first

/-- Heap construction loop of `heapSort_func`:
`for i := (hi - 1) / 2; i >= 0; i--`. -/
def heapBuildLoop (lt : α → α → Bool) : Nat → List α → Int → Int → Int → List α
  | 0, arr, _, _, _ => arr
  | fuel + 1, arr, hi, first, i =>
    let arr := siftDownGo lt (hi.toNat + 1) arr i hi first
    if i = 0 then arr else heapBuildLoop lt fuel arr hi first (i - 1)

/-- Pop loop of `heapSort_func`: `for i := hi - 1; i >= 0; i--`. -/
def heapPopLoop (lt : α → α → Bool) : Nat → List α → Int → Int → List α
  | 0, arr, _, _ => arr
  | fuel + 1, arr, first, i =>
    let arr := swapL arr first (first + i)
    let arr := siftDownGo lt (i.toNat + 1) arr 0 i first
    if i = 0 then arr else heapPopLoop lt fuel arr first (i - 1)

/-- `heapSort_func(data, a, b)`; Go's `(hi-1)/2` is truncated division. -/
def heapSortGo (lt : α → α → Bool) (arr : List α) (a b : Int) : List α :=
  let first := a
  let hi := b - a
  let arr := heapBuildLoop lt (((hi - 1).tdiv 2).toNat + 1) arr hi first ((hi - 1).tdiv 2)
  if hi ≤ 0 then arr else heapPopLoop lt ((hi - 1).toNat + 1) arr first (hi - 1)

/-- `partition_func` scan: `for i <= j && data.Less(i, a) { i++ }`. -/
def partSkipI (lt : α → α → Bool) : Nat → List α → Int → Int → Int → Int
  | 0, _, _, _, i => i
  | fuel + 1, arr, a, j, i =>
    if i ≤ j ∧ lessAt lt arr i a then partSkipI lt fuel arr a j (i + 1) else i

/-- `partition_func` scan: `for i <= j && !data.Less(j, a) { j-- }`. -/
def partSkipJ (lt : α → α → Bool) : Nat → List α → Int → Int → Int → Int
  | 0, _, _, _, j => j
  | fuel + 1, arr, a, i, j =>
    if i ≤ j ∧ ¬ lessAt lt arr j a then partSkipJ lt fuel arr a i (j - 1) else j

/-- The main loop of `partition_func` (scan, scan, test, swap, repeat);
returns the array and the final value of `j`. -/
def partitionLoop (lt : α → α → Bool) : Nat → List α → Int → Int → Int → List α × Int
  | 0, arr, _, _, j => (arr, j)
  | fuel + 1, arr, a, i, j =>
    let i := partSkipI lt (j + 1 - i).toNat arr a j i
    let j := partSkipJ lt (j + 1 - i).toNat arr a i j
    if i > j then (arr, j)
    else partitionLoop lt fuel (swapL arr i j) a (i + 1) (j - 1)

/-- `partition_func(data, a, b, pivot) (newpivot, alreadyPartitioned)`. -/
def partitionGo (lt : α → α → Bool) (arr : List α) (a b pivot : Int) :
    List α × Int × Bool :=
  let arr := swapL arr a pivot
  let i := partSkipI lt (b - a).toNat arr a (b - 1) (a + 1)
  let j := partSkipJ lt (b - a).toNat arr a i (b - 1)
  if i > j then (swapL arr j a, j, true)
  else
    let arr := swapL arr i j
    let r := partitionLoop lt (b - a).toNat arr a (i + 1) (j - 1)
    (swapL r.1 r.2 a, r.2, false)

/-- `partitionEqual_func` scan: `for i <= j && !data.Less(a, i) { i++ }`. -/
def partEqSkipI (lt : α → α → Bool) : Nat → List α → Int → Int → Int → Int
  | 0, _, _, _, i => i
  | fuel + 1, arr, a, j, i =>
    if i ≤ j ∧ ¬ lessAt lt arr a i then partEqSkipI lt fuel arr a j (i + 1) else i

/-- `partitionEqual_func` scan: `for i <= j && data.Less(a, j) { j-- }`. -/
def partEqSkipJ (lt : α → α → Bool) : Nat → List α → Int → Int → Int → Int
  | 0, _, _, _, j => j
  | fuel + 1, arr, a, i, j =>
    if i ≤ j ∧ lessAt lt arr a j then partEqSkipJ lt fuel arr a i (j - 1) else j

/-- The loop of `partitionEqual_func`; returns the array and `newpivot = i`. -/
def partitionEqualLoop (lt : α → α → Bool) : Nat → List α → Int → Int → Int → List α × Int
  | 0, arr, _, i, _ => (arr, i)
  | fuel + 1, arr, a, i, j =>
    let i := partEqSkipI lt (j + 1 - i).toNat arr a j i
    let j := partEqSkipJ lt (j + 1 - i).toNat arr a i j
    if i > j then (arr, i)
    else partitionEqualLoop lt fuel (swapL arr i j) a (i + 1) (j - 1)

/-- `partitionEqual_func(data, a, b, pivot) newpivot`. -/
def partitionEqualGo (lt : α → α → Bool) (arr : List α) (a b pivot : Int) :
    List α × Int :=
  let arr := swapL arr a pivot
  partitionEqualLoop lt (b - a).toNat arr a (a + 1) (b - 1)

/-- Scan of `partialInsertionSort_func`:
`for i < b && !data.Less(i, i-1) { i++ }`. -/
def pisScan (lt : α → α → Bool) : Nat → List α → Int → Int → Int
  | 0, _, _, i => i
  | fuel + 1, arr, b, i =>
    if i < b ∧ ¬ lessAt lt arr i (i - 1) then pisScan lt fuel arr b (i + 1) else i

/-- Left shift of `partialInsertionSort_func`:
`for j := i - 1; j >= 1; j-- { if !less(j, j-1) break; swap(j, j-1) }`. -/
def pisShiftLeft (lt : α → α → Bool) : Nat → List α → Int → List α
  | 0, arr, _ => arr
  | fuel + 1, arr, j =>
    if j ≥ 1 ∧ lessAt lt arr j (j - 1) then
      pisShiftLeft lt fuel (swapL arr j (j - 1)) (j - 1)
    else arr

/-- Right shift of `partialInsertionSort_func`:
`for j := i + 1; j < b; j++ { if !less(j, j-1) break; swap(j, j-1) }`. -/
def pisShiftRight (lt : α → α → Bool) : Nat → List α → Int → Int → List α
  | 0, arr, _, _ => arr
  | fuel + 1, arr, b, j =>
    if j < b ∧ lessAt lt arr j (j - 1) then
      pisShiftRight lt fuel (swapL arr j (j - 1)) b (j + 1)
    else arr

/-- The `maxSteps` loop of `partialInsertionSort_func` (the counter of
shifted out-of-order pairs counts down from `maxSteps = 5`;
`shortestShifting = 50`). -/
def pisSteps (lt : α → α → Bool) : List α → Int → Int → Int → Nat → List α × Bool
  | arr, _, _, _, 0 => (arr, false)
  | arr, a, b, i, steps + 1 =>
    let i := pisScan lt (b - i).toNat arr b i
    if i = b then (arr, true)
    else if b - a < 50 then (arr, false)
    else
      let arr := swapL arr i (i - 1)
      let arr := if i - a ≥ 2 then pisShiftLeft lt i.toNat arr (i - 1) else arr
      let arr := if b - i ≥ 2 then pisShiftRight lt (b - i).toNat arr b (i + 1) else arr
      pisSteps lt arr a b i steps

/-- `partialInsertionSort_func(data, a, b)`: partially sorts, returns
whether the range ended up sorted. -/
def likelySortedPass (lt : α → α → Bool) (arr : List α) (a b : Int) : List α × Bool :=
  pisSteps lt arr a b (a + 1) 5

/-- `bits.Len` on a nonnegative value. -/
def bitsLen (n : Nat) : Nat := if n = 0 then 0 else Nat.log2 n + 1

/-- `nextPowerOfTwo(length) = 1 << bits.Len(uint(length))`. -/
def nextPowerOfTwo (length : Int) : Nat := 1 <<< bitsLen length.toNat

/-- One step of the `xorshift` generator (uint64 state). -/
def xorshiftNext (r : Nat) : Nat :=
  let r := (r ^^^ ((r <<< 13) % 2 ^ 64)) % 2 ^ 64
  let r := r ^^^ (r >>> 7)
  (r ^^^ ((r <<< 17) % 2 ^ 64)) % 2 ^ 64

/-- The three swaps of `breakPatterns_func` (`k` counts down from 3, so
the Go loop counter is `i = 3 - k`). -/
def bpLoop (a idx length : Int) (modulus : Nat) : List α → Nat → Nat → List α
  | arr, _, 0 => arr
  | arr, random, k + 1 =>
    let random := xorshiftNext random
    let other : Int := (random &&& (modulus - 1) : Nat)
    let other := if other ≥ length then other - length else other
    let i : Int := 3 - (k + 1)
    bpLoop a idx length modulus (swapL arr (idx - 1 + i) (a + other)) random k

/-- `breakPatterns_func(data, a, b)`; the xorshift state is seeded with
the range length. -/
def breakPatternsGo (arr : List α) (a b : Int) : List α :=
  let length := b - a
  if length ≥ 8 then
    let random := length.toNat
    let modulus := nextPowerOfTwo length
    let idx := a + (length.tdiv 4) * 2 - 1
    bpLoop a idx length modulus arr random 3
  else arr

/-- `sortedHint` of the Go sort package. -/
inductive SortedHint where
  | unknown
  | increasing
  | decreasing
deriving DecidableEq, Repr

/-- `order2_func`: order two indices by the elements they point to,
counting comparisons that had to swap. -/
def order2Go (lt : α → α → Bool) (arr : List α) (a b : Int) (swaps : Nat) :
    Int × Int × Nat :=
  if lessAt lt arr b a then (b, a, swaps + 1) else (a, b, swaps)

/-- `median_func`: index of the median of three elements. -/
def medianGo (lt : α → α → Bool) (arr : List α) (a b c : Int) (swaps : Nat) :
    Int × Nat :=
  let (a, b, swaps) := order2Go lt arr a b swaps
  let (b, _, swaps) := order2Go lt arr b c swaps
  let (_, b, swaps) := order2Go lt arr a b swaps
  (b, swaps)

/-- `medianAdjacent_func`: median of `data[a-1]`, `data[a]`, `data[a+1]`. -/
def medianAdjacentGo (lt : α → α → Bool) (arr : List α) (a : Int) (swaps : Nat) :
    Int × Nat :=
  medianGo lt arr (a - 1) a (a + 1) swaps

/-- `choosePivot_func(data, a, b) (pivot, hint)`:
static pivot below 8 elements, median of three up to `shortestNinther = 50`,
Tukey ninther beyond; `maxSwaps = 12`. -/
def choosePivotGo (lt : α → α → Bool) (arr : List α) (a b : Int) :
    Int × SortedHint :=
  let l := b - a
  let i := a + (l.tdiv 4) * 1
  let j := a + (l.tdiv 4) * 2
  let k := a + (l.tdiv 4) * 3
  let r :=
    if l ≥ 8 then
      if l ≥ 50 then
        let (i, s) := medianAdjacentGo lt arr i 0
        let (j, s) := medianAdjacentGo lt arr j s
        let (k, s) := medianAdjacentGo lt arr k s
        medianGo lt arr i j k s
      else medianGo lt arr i j k 0
    else (j, 0)
  if r.2 = 0 then (r.1, .increasing)
  else if r.2 = 12 then (r.1, .decreasing)
  else (r.1, .unknown)

/-- `reverseRange_func` loop. -/
def reverseRangeLoop : Nat → List α → Int → Int → List α
  | 0, arr, _, _ => arr
  | fuel + 1, arr, i, j =>
    if i < j then reverseRangeLoop fuel (swapL arr i j) (i + 1) (j - 1) else arr

/-- `reverseRange_func(data, a, b)`. -/
def reverseRangeGo (arr : List α) (a b : Int) : List α :=
  reverseRangeLoop (b - a).toNat arr a (b - 1)

/-- The prologue of one `pdqsort_func` loop iteration, in source order:
`breakPatterns` (when the previous partitioning was imbalanced, also
decrementing `limit`), `choosePivot`, `reverseRange` on a decreasing
hint (with the pivot index mirrored), and `partialInsertionSort` when
the slice is likely already sorted.  Returns the updated slice, the
updated `limit`, the pivot, and whether the iteration may return early
because the slice is now sorted. -/
def pdqIterPrep (lt : α → α → Bool) (arr : List α) (a b : Int) (limit : Nat)
    (wasBalanced wasPartitioned : Bool) : List α × Nat × Int × Bool :=
  let st :=
    if ¬ wasBalanced then (breakPatternsGo arr a b, limit - 1) else (arr, limit)
  let arr := st.1
  let limit := st.2
  let pv := choosePivotGo lt arr a b
  let st2 :=
    if pv.2 = SortedHint.decreasing then
      (reverseRangeGo arr a b, (b - 1) - (pv.1 - a), SortedHint.increasing)
    else (arr, pv.1, pv.2)
  let arr := st2.1
  let pivot := st2.2.1
  let hint := st2.2.2
  let st3 :=
    if wasBalanced ∧ wasPartitioned ∧ hint = SortedHint.increasing then
      likelySortedPass lt arr a b
    else (arr, false)
  (st3.1, limit, pivot, st3.2)

/-- `pdqsort_func(data, a, b, limit)` (`maxInsertion = 12`).  The Go
`for` loop plus the recursive call both appear as recursion on `fuel`;
every loop iteration and every recursive call strictly shrinks `b - a`,
so fuel `length + 1` at the top level is never exhausted. -/
def pdqsortLoop (lt : α → α → Bool) :
    Nat → List α → Int → Int → Nat → Bool → Bool → List α
  | 0, arr, _, _, _, _, _ => arr
  | fuel + 1, arr, a, b, limit, wasBalanced, wasPartitioned =>
    let length := b - a
    if length ≤ 12 then insertionSortGo lt arr a b
    else if limit = 0 then heapSortGo lt arr a b
    else
      let pr0 := pdqIterPrep lt arr a b limit wasBalanced wasPartitioned
      let arr := pr0.1
      let limit := pr0.2.1
      let pivot := pr0.2.2.1
      if pr0.2.2.2 then arr
      else if a > 0 ∧ ¬ lessAt lt arr (a - 1) pivot then
        let pe := partitionEqualGo lt arr a b pivot
        pdqsortLoop lt fuel pe.1 pe.2 b limit wasBalanced wasPartitioned
      else
        let pr := partitionGo lt arr a b pivot
        let arr := pr.1
        let mid := pr.2.1
        let wasPartitioned := pr.2.2
        let leftLen := mid - a
        let rightLen := b - mid
        let balanceThreshold := length.tdiv 8
        let wasBalanced := decide (min leftLen rightLen ≥ balanceThreshold)
        if leftLen < rightLen then
          let arr := pdqsortLoop lt fuel arr a mid limit true true
          pdqsortLoop lt fuel arr (mid + 1) b limit wasBalanced wasPartitioned
        else
          let arr := pdqsortLoop lt fuel arr (mid + 1) b limit true true
          pdqsortLoop lt fuel arr a mid limit wasBalanced wasPartitioned

/-- `sort.Slice(x, less)`: `pdqsort_func(lessSwap, 0, length, bits.Len(uint(length)))`. -/
def sortSliceBy (lt : α → α → Bool) (l : List α) : List α :=
  pdqsortLoop lt (l.length + 1) l 0 (l.length : Int) (bitsLen l.length) true true

end GoSort

/-- The ranking step of `printObject` (main.go:182-184):
`sort.Slice(condElems, func(i, j int) bool { return byCondition(condElems[i], condElems[j]) })`. -/
def sortConditions (l : List GenericCondition) : List GenericCondition :=
  sortSliceBy byCondition l

/-! ### Concrete inputs used by witnesses and counterexamples -/

/-- A condition with only a type and a status (no reason, message,
timestamps, or generation). -/
def mkCond (t s : String) : GenericCondition := ⟨t, s, "", "", none, none, none, 0⟩

/-- Thirteen conditions that all share Tier-1 bucket `0`; all are
semantically `False` except `C11`, which is semantically `True`; no
condition has a timestamp, so all thirteen share the sentinel freshness
value.  Hence all conditions except `C11` compare equal on all three
tiers. -/
def tiedConditions : List GenericCondition :=
  [mkCond "C0" "False", mkCond "C1" "False", mkCond "C2" "False",
   mkCond "C3" "False", mkCond "C4" "False", mkCond "C5" "False",
   mkCond "C6" "False", mkCond "C7" "False", mkCond "C8" "False",
   mkCond "C9" "False", mkCond "C10" "False", mkCond "C11" "True",
   mkCond "C12" "False"]

/-- `{type: ContainersReady, status: False}` of the Tier-1 scenario. -/
def exContainersReady : GenericCondition := mkCond "ContainersReady" "False"

/-- `{type: Ready, status: True}` of the Tier-1 scenario. -/
def exReady : GenericCondition := mkCond "Ready" "True"

/-- `{type: MemoryPressure, status: True}` of the Tier-2 scenario. -/
def exMemoryPressure : GenericCondition := mkCond "MemoryPressure" "True"

/-- `{type: DiskPressure, status: False}` of the Tier-2 scenario. -/
def exDiskPressure : GenericCondition := mkCond "DiskPressure" "False"

/-- A condition with no timestamps at all: its freshness value is the
sentinel (Go's zero time, year 1). -/
def exSentinel : GenericCondition := mkCond "A" "True"

/-- A condition whose only timestamp is the RFC3339-representable
instant `0000-01-01T00:00:00Z`, which is strictly earlier than Go's zero
time. -/
def exYearZero : GenericCondition :=
  { mkCond "B" "True" with lastTransitionTime := some ⟨0, 1, 1, 0, 0, 0⟩ }

/-- An object whose `status.conditions` value is present but is a string
rather than a list. -/
def objConditionsNotAList : List (String × JValue) :=
  [("status", .obj [("conditions", .str "hi")])]

/-- An object whose `status` value is a number, so the path traversal
hits a non-map intermediate value. -/
def objStatusNotAMap : List (String × JValue) :=
  [("status", .num 5)]

/-- An object with a single condition whose `status` field is the given
string. -/
def objWithStatus (s : String) : List (String × JValue) :=
  [("status", .obj [("conditions",
    .arr [.obj [("type", .str "Foo"), ("status", .str s)]])])]

/-- `pat` occurs contiguously inside `l`. -/
def Occurs (pat l : List Char) : Prop := ∃ pre post, l = pre ++ pat ++ post

/-- A condition whose only content is the two-character message `hi`. -/
def condMsgHi : GenericCondition := { mkCond "A" "True" with message := "hi" }

/-- A `RenderEnv` whose display collaborators are all the identity (or
constant) function; used to evaluate the formatter concretely. -/
def idEnv : RenderEnv :=
  { bold := id, gray := id, relTime := fun _ => [], fmtTime := fun _ => [] }

/-! ### The ranked output is a permutation of the input

Every mutation performed by the embedded sort is a `swapL`, so each phase
of the algorithm permutes the slice. -/

section GoSortPerm

variable {α : Type} [Inhabited α]

omit [Inhabited α] in
theorem getD_cons_set_perm (d : α) :
    ∀ (xs : List α) (m : Nat) (x : α), m < xs.length →
      (xs.getD m d :: xs.set m x).Perm (x :: xs)
  | [], m, _, h => absurd h (by simp)
  | y :: ys, 0, x, _ => by
    simpa using List.Perm.swap x y ys
  | y :: ys, m + 1, x, h => by
    have ih := getD_cons_set_perm d ys m x (by simpa using h)
    show (ys.getD m d :: y :: ys.set m x).Perm (x :: y :: ys)
    exact ((List.Perm.swap y (ys.getD m d) (ys.set m x)).trans
      (ih.cons y)).trans (List.Perm.swap x y ys)

omit [Inhabited α] in
theorem set_set_perm (d : α) :
    ∀ (l : List α) (i j : Nat), i < l.length → j < l.length →
      ((l.set i (l.getD j d)).set j (l.getD i d)).Perm l
  | [], i, _, hi, _ => absurd hi (by simp)
  | x :: xs, 0, 0, _, _ => by simp
  | x :: xs, 0, m + 1, _, hj => by
    show (((x :: xs).set 0 (xs.getD m d)).set (m + 1) x).Perm (x :: xs)
    show (xs.getD m d :: xs.set m x).Perm (x :: xs)
    exact getD_cons_set_perm d xs m x (by simpa using hj)
  | x :: xs, k + 1, 0, hi, _ => by
    show (((x :: xs).set (k + 1) x).set 0 (xs.getD k d)).Perm (x :: xs)
    show (xs.getD k d :: xs.set k x).Perm (x :: xs)
    exact getD_cons_set_perm d xs k x (by simpa using hi)
  | x :: xs, k + 1, m + 1, hi, hj => by
    show (x :: (xs.set k (xs.getD m d)).set m (xs.getD k d)).Perm (x :: xs)
    exact (set_set_perm d xs k m (by simpa using hi) (by simpa using hj)).cons x

theorem swapL_perm (arr : List α) (i j : Int) : (swapL arr i j).Perm arr := by
  unfold swapL
  split
  case isTrue h =>
    exact set_set_perm default arr i.toNat j.toNat (by omega) (by omega)
  case isFalse h => exact .refl _

theorem insSortInner_perm (lt : α → α → Bool) :
    ∀ (fuel : Nat) (arr : List α) (a j : Int),
      (insSortInner lt fuel arr a j).Perm arr := by
  intro fuel
  induction fuel with
  | zero => intro arr a j; exact .refl _
  | succ n ih =>
    intro arr a j
    simp only [insSortInner]
    split
    · exact (ih _ _ _).trans (swapL_perm _ _ _)
    · exact .refl _

theorem insSortOuter_perm (lt : α → α → Bool) :
    ∀ (fuel : Nat) (arr : List α) (a b i : Int),
      (insSortOuter lt fuel arr a b i).Perm arr := by
  intro fuel
  induction fuel with
  | zero => intro arr a b i; exact .refl _
  | succ n ih =>
    intro arr a b i
    simp only [insSortOuter]
    split
    · exact (ih _ _ _ _).trans (insSortInner_perm lt _ _ _ _)
    · exact .refl _

theorem insertionSortGo_perm (lt : α → α → Bool) (arr : List α) (a b : Int) :
    (insertionSortGo lt arr a b).Perm arr :=
  insSortOuter_perm lt _ arr a b (a + 1)

theorem siftDownGo_perm (lt : α → α → Bool) :
    ∀ (fuel : Nat) (arr : List α) (root hi first : Int),
      (siftDownGo lt fuel arr root hi first).Perm arr := by
  intro fuel
  induction fuel with
  | zero => intro arr root hi first; exact .refl _
  | succ n ih =>
    intro arr root hi first
    simp only [siftDownGo]
    split
    · exact .refl _
    · split
      · split
        · exact .refl _
        · exact (ih _ _ _ _).trans (swapL_perm _ _ _)
      · split
        · exact .refl _
        · exact (ih _ _ _ _).trans (swapL_perm _ _ _)

theorem heapBuildLoop_perm (lt : α → α → Bool) :
    ∀ (fuel : Nat) (arr : List α) (hi first i : Int),
      (heapBuildLoop lt fuel arr hi first i).Perm arr := by
  intro fuel
  induction fuel with
  | zero => intro arr hi first i; exact .refl _
  | succ n ih =>
    intro arr hi first i
    simp only [heapBuildLoop]
    split
    · exact siftDownGo_perm lt _ _ _ _ _
    · exact (ih _ _ _ _).trans (siftDownGo_perm lt _ _ _ _ _)

theorem heapPopLoop_perm (lt : α → α → Bool) :
    ∀ (fuel : Nat) (arr : List α) (first i : Int),
      (heapPopLoop lt fuel arr first i).Perm arr := by
  intro fuel
  induction fuel with
  | zero => intro arr first i; exact .refl _
  | succ n ih =>
    intro arr first i
    simp only [heapPopLoop]
    have base : ((siftDownGo lt (i.toNat + 1) (swapL arr first (first + i)) 0 i
        first)).Perm arr :=
      (siftDownGo_perm lt _ _ _ _ _).trans (swapL_perm _ _ _)
    split
    · exact base
    · exact (ih _ _ _).trans base

theorem heapSortGo_perm (lt : α → α → Bool) (arr : List α) (a b : Int) :
    (heapSortGo lt arr a b).Perm arr := by
  simp only [heapSortGo]
  split
  · exact heapBuildLoop_perm lt _ _ _ _ _
  · exact (heapPopLoop_perm lt _ _ _ _).trans (heapBuildLoop_perm lt _ _ _ _ _)

theorem partitionLoop_perm (lt : α → α → Bool) :
    ∀ (fuel : Nat) (arr : List α) (a i j : Int),
      (partitionLoop lt fuel arr a i j).1.Perm arr := by
  intro fuel
  induction fuel with
  | zero => intro arr a i j; exact .refl _
  | succ n ih =>
    intro arr a i j
    simp only [partitionLoop]
    split
    · exact .refl _
    · exact (ih _ _ _ _).trans (swapL_perm _ _ _)

theorem partitionGo_perm (lt : α → α → Bool) (arr : List α) (a b pivot : Int) :
    (partitionGo lt arr a b pivot).1.Perm arr := by
  simp only [partitionGo]
  split
  · exact (swapL_perm _ _ _).trans (swapL_perm _ _ _)
  · exact ((swapL_perm _ _ _).trans
      ((partitionLoop_perm lt _ _ _ _ _).trans
        ((swapL_perm _ _ _).trans (swapL_perm _ _ _))))

theorem partitionEqualLoop_perm (lt : α → α → Bool) :
    ∀ (fuel : Nat) (arr : List α) (a i j : Int),
      (partitionEqualLoop lt fuel arr a i j).1.Perm arr := by
  intro fuel
  induction fuel with
  | zero => intro arr a i j; exact .refl _
  | succ n ih =>
    intro arr a i j
    simp only [partitionEqualLoop]
    split
    · exact .refl _
    · exact (ih _ _ _ _).trans (swapL_perm _ _ _)

theorem partitionEqualGo_perm (lt : α → α → Bool) (arr : List α) (a b pivot : Int) :
    (partitionEqualGo lt arr a b pivot).1.Perm arr :=
  (partitionEqualLoop_perm lt _ _ _ _ _).trans (swapL_perm _ _ _)

theorem pisShiftLeft_perm (lt : α → α → Bool) :
    ∀ (fuel : Nat) (arr : List α) (j : Int),
      (pisShiftLeft lt fuel arr j).Perm arr := by
  intro fuel
  induction fuel with
  | zero => intro arr j; exact .refl _
  | succ n ih =>
    intro arr j
    simp only [pisShiftLeft]
    split
    · exact (ih _ _).trans (swapL_perm _ _ _)
    · exact .refl _

theorem pisShiftRight_perm (lt : α → α → Bool) :
    ∀ (fuel : Nat) (arr : List α) (b j : Int),
      (pisShiftRight lt fuel arr b j).Perm arr := by
  intro fuel
  induction fuel with
  | zero => intro arr b j; exact .refl _
  | succ n ih =>
    intro arr b j
    simp only [pisShiftRight]
    split
    · exact (ih _ _ _).trans (swapL_perm _ _ _)
    · exact .refl _

theorem pisSteps_perm (lt : α → α → Bool) :
    ∀ (steps : Nat) (arr : List α) (a b i : Int),
      (pisSteps lt arr a b i steps).1.Perm arr := by
  intro steps
  induction steps with
  | zero => intro arr a b i; exact .refl _
  | succ n ih =>
    intro arr a b i
    simp only [pisSteps]
    split
    · exact .refl _
    · split
      · exact .refl _
      · refine (ih _ _ _ _).trans ?_
        split <;> split <;>
          first
            | exact (pisShiftRight_perm lt _ _ _ _).trans
                ((pisShiftLeft_perm lt _ _ _).trans (swapL_perm _ _ _))
            | exact (pisShiftLeft_perm lt _ _ _).trans (swapL_perm _ _ _)
            | exact (pisShiftRight_perm lt _ _ _ _).trans (swapL_perm _ _ _)
            | exact swapL_perm _ _ _

theorem likelySortedPass_perm (lt : α → α → Bool) (arr : List α) (a b : Int) :
    (likelySortedPass lt arr a b).1.Perm arr :=
  pisSteps_perm lt 5 arr a b (a + 1)

theorem bpLoop_perm (a idx length : Int) (modulus : Nat) :
    ∀ (k : Nat) (arr : List α) (random : Nat),
      (bpLoop a idx length modulus arr random k).Perm arr := by
  intro k
  induction k with
  | zero => intro arr random; exact .refl _
  | succ n ih =>
    intro arr random
    simp only [bpLoop]
    exact (ih _ _).trans (swapL_perm _ _ _)

theorem breakPatternsGo_perm (arr : List α) (a b : Int) :
    (breakPatternsGo arr a b).Perm arr := by
  simp only [breakPatternsGo]
  split
  · exact bpLoop_perm _ _ _ _ _ _ _
  · exact .refl _

theorem reverseRangeLoop_perm :
    ∀ (fuel : Nat) (arr : List α) (i j : Int),
      (reverseRangeLoop fuel arr i j).Perm arr := by
  intro fuel
  induction fuel with
  | zero => intro arr i j; exact .refl _
  | succ n ih =>
    intro arr i j
    simp only [reverseRangeLoop]
    split
    · exact (ih _ _ _).trans (swapL_perm _ _ _)
    · exact .refl _

theorem reverseRangeGo_perm (arr : List α) (a b : Int) :
    (reverseRangeGo arr a b).Perm arr :=
  reverseRangeLoop_perm _ arr a (b - 1)

theorem pdqIterPrep_perm (lt : α → α → Bool) (arr : List α) (a b : Int)
    (limit : Nat) (w p : Bool) :
    (pdqIterPrep lt arr a b limit w p).1.Perm arr := by
  simp only [pdqIterPrep]
  split <;> split <;> split <;>
    first
      | exact .refl _
      | exact breakPatternsGo_perm _ _ _
      | exact reverseRangeGo_perm _ _ _
      | exact (reverseRangeGo_perm _ _ _).trans (breakPatternsGo_perm _ _ _)
      | exact (likelySortedPass_perm lt _ _ _).trans (breakPatternsGo_perm _ _ _)
      | exact (likelySortedPass_perm lt _ _ _).trans (reverseRangeGo_perm _ _ _)
      | exact (likelySortedPass_perm lt _ _ _).trans
          ((reverseRangeGo_perm _ _ _).trans (breakPatternsGo_perm _ _ _))
      | exact likelySortedPass_perm lt _ _ _

theorem pdqsortLoop_perm (lt : α → α → Bool) :
    ∀ (fuel : Nat) (arr : List α) (a b : Int) (limit : Nat) (w p : Bool),
      (pdqsortLoop lt fuel arr a b limit w p).Perm arr := by
  intro fuel
  induction fuel with
  | zero => intro arr a b limit w p; exact .refl _
  | succ n ih =>
    intro arr a b limit w p
    have hprep : (pdqIterPrep lt arr a b limit w p).1.Perm arr :=
      pdqIterPrep_perm lt arr a b limit w p
    simp only [pdqsortLoop]
    split
    · exact insertionSortGo_perm lt _ _ _
    split
    · exact heapSortGo_perm lt _ _ _
    · split
      · exact hprep
      split
      · exact (ih _ _ _ _ _ _).trans ((partitionEqualGo_perm lt _ _ _ _).trans hprep)
      split
      · exact (ih _ _ _ _ _ _).trans ((ih _ _ _ _ _ _).trans
          ((partitionGo_perm lt _ _ _ _).trans hprep))
      · exact (ih _ _ _ _ _ _).trans ((ih _ _ _ _ _ _).trans
          ((partitionGo_perm lt _ _ _ _).trans hprep))

theorem sortSliceBy_perm (lt : α → α → Bool) (l : List α) :
    (sortSliceBy lt l).Perm l :=
  pdqsortLoop_perm lt _ l 0 _ _ true true

end GoSortPerm

/-! ### Wrapping lemmas -/

theorem utf8Len_eq_length {l : List Char}
    (h : ∀ c ∈ l, Char.utf8Size c = 1) : utf8Len l = l.length := by
  induction l with
  | nil => rfl
  | cons c t ih =>
    have hc := h c (by simp)
    have ht := ih (fun x hx => h x (by simp [hx]))
    simp only [utf8Len, List.map_cons, List.sum_cons, List.length_cons] at ht ⊢
    omega

/-- One flush step of `wrapLoop` on single-byte, newline-free input:
when the pending line plus the remaining input reach the width, the next
emitted line is exactly the characters up to the width. -/
theorem wrapLoop_flush (n : Nat) :
    ∀ (s line : List Char), (∀ c ∈ s, Char.utf8Size c = 1 ∧ c ≠ '\n') →
      (∀ c ∈ line, Char.utf8Size c = 1) → line.length < n →
      n ≤ line.length + s.length →
      wrapLoop n id line s =
        (line ++ s.take (n - line.length)) ++ '\n' ::
          wrapLoop n id [] (s.drop (n - line.length))
  | [], line, _, _, hlt, hge => by
    simp only [List.length_nil, Nat.add_zero] at hge
    omega
  | c :: rest, line, hs, hline, hlt, hge => by
    have hc : Char.utf8Size c = 1 ∧ c ≠ '\n' := hs c (by simp)
    have hlen : utf8Len (line ++ [c]) = line.length + 1 := by
      rw [utf8Len_eq_length]
      · simp
      · intro x hx
        rcases List.mem_append.mp hx with h | h
        · exact hline x h
        · simp only [List.mem_singleton] at h
          subst h; exact hc.1
    simp only [wrapLoop, hlen]
    by_cases hcond : n ≤ line.length + 1
    · rw [if_pos (Or.inl hcond)]
      have h1 : n - line.length = 1 := by omega
      rw [h1]
      simp
    · rw [if_neg (by simp [hc.2]; omega)]
      have ih := wrapLoop_flush n rest (line ++ [c])
        (fun x hx => hs x (by simp [hx]))
        (fun x hx => by
          rcases List.mem_append.mp hx with h | h
          · exact hline x h
          · simp only [List.mem_singleton] at h
            subst h; exact hc.1)
        (by simp; omega)
        (by simp at hge ⊢; omega)
      rw [ih]
      have hk : n - line.length = (n - (line.length + 1)) + 1 := by omega
      rw [hk]
      simp [List.take_succ_cons, List.drop_succ_cons]

theorem occurs_append_left (pat l x : List Char) (h : Occurs pat l) :
    Occurs pat (x ++ l) := by
  obtain ⟨pre, post, rfl⟩ := h
  exact ⟨x ++ pre, post, by simp⟩

/-- Whenever the input still holds an embedded newline, the emitted text
contains two consecutive newline characters: the embedded newline is
flushed inside its line and is followed by the separator newline. -/
theorem wrapLoop_newline (n : Nat) :
    ∀ (s line : List Char), '\n' ∈ s → Occurs ['\n', '\n'] (wrapLoop n id line s)
  | [], _, h => absurd h (by simp)
  | c :: rest, line, h => by
    simp only [wrapLoop]
    by_cases hc : c = '\n'
    · subst hc
      rw [if_pos (Or.inr rfl)]
      exact ⟨line, wrapLoop n id [] rest, by simp⟩
    · have hrest : '\n' ∈ rest := by
        rcases List.mem_cons.mp h with h1 | h1
        · exact absurd h1.symm hc
        · exact h1
      split
      · have hocc := occurs_append_left _ _ (id (line ++ [c]) ++ ['\n'])
          (wrapLoop_newline n rest [] hrest)
        simpa using hocc
      · exact wrapLoop_newline n rest (line ++ [c]) hrest

/-- C2 (amended): message wrapping at width 80 is byte-accurate, so for
every message of exactly 240 printable single-byte (ASCII) characters
with no embedded newlines, `wrapString` at width 80 produces exactly 3
wrapped lines of exactly 80 characters each, each followed by a newline:
the break is forced after every 80 characters. -/
theorem wrapString_240_ascii (s : List Char) (h240 : s.length = 240)
    (hascii : ∀ c ∈ s, Char.utf8Size c = 1 ∧ c ≠ '\n') :
    wrapString s 80 id =
      s.take 80 ++ '\n' ::
        ((s.drop 80).take 80 ++ '\n' :: ((s.drop 160).take 80 ++ ['\n'])) := by
  have h1 := wrapLoop_flush 80 s [] hascii (by simp) (by simp) (by omega)
  have hs80 : ∀ c ∈ s.drop 80, Char.utf8Size c = 1 ∧ c ≠ '\n' :=
    fun c hc => hascii c (List.mem_of_mem_drop hc)
  have h2 := wrapLoop_flush 80 (s.drop 80) [] hs80 (by simp) (by simp)
    (by simp [h240])
  have hs160 : ∀ c ∈ s.drop 160, Char.utf8Size c = 1 ∧ c ≠ '\n' :=
    fun c hc => hascii c (List.mem_of_mem_drop hc)
  have h3 := wrapLoop_flush 80 (s.drop 160) [] hs160 (by simp) (by simp)
    (by simp [h240])
  have hdd : (s.drop 80).drop 80 = s.drop 160 := by
    rw [List.drop_drop]
  have hdd2 : (s.drop 160).drop 80 = [] := by
    have hlen : ((s.drop 160).drop 80).length = 0 := by simp [h240]
    exact List.eq_nil_of_length_eq_zero hlen
  simp only [List.length_nil, Nat.sub_zero, List.nil_append] at h1 h2 h3
  rw [wrapString, if_neg (by norm_num)]
  show wrapLoop 80 id [] s = _
  rw [h1, h2, hdd, h3, hdd2]
  simp [wrapLoop]

set_option maxRecDepth 4000 in
/-- Witness for C2 (amended): 240 copies of the ASCII character `a`
wrap into three 80-character lines. -/
theorem wrapString_240_ascii_witness :
    wrapString (List.replicate 240 'a') 80 id =
      (List.replicate 240 'a').take 80 ++ '\n' ::
        (((List.replicate 240 'a').drop 80).take 80 ++ '\n' ::
          (((List.replicate 240 'a').drop 160).take 80 ++ ['\n'])) :=
  wrapString_240_ascii (List.replicate 240 'a') (by simp)
    (fun c hc => by
      have := List.eq_of_mem_replicate hc
      subst this
      exact ⟨rfl, by decide⟩)

set_option maxRecDepth 100000 in
/-- Counterexample to C2 as stated: a message of 240 printable
characters that are not single-byte (240 copies of `é`, 2 UTF-8 bytes
each) does not wrap into 3 lines of 80 characters: the flush condition
`line.Len() >= n` counts bytes, so the break comes every 40 characters.
The 3-lines-of-80 shape is impossible by a length count: the actual
output has 246 characters (6 lines of 40 plus 6 newlines), the claimed
shape has 243. -/
theorem wrapString_240_not_rune_accurate :
    ¬ ∃ l1 l2 l3 : List Char, l1.length = 80 ∧ l2.length = 80 ∧ l3.length = 80 ∧
      wrapString (List.replicate 240 'é') 80 id =
        l1 ++ '\n' :: (l2 ++ '\n' :: (l3 ++ ['\n'])) := by
  rintro ⟨l1, l2, l3, h1, h2, h3, h⟩
  have hlen : (wrapString (List.replicate 240 'é') 80 id).length = 246 := by decide
  rw [h] at hlen
  simp at hlen
  omega

/-- C10: for every input containing an embedded newline and every
positive wrap width, the embedded newline is emitted inside its flushed
line and is followed by the separator newline, so the output contains an
empty physical line (two consecutive newlines); with identity
colorization, `"a\nb"` wraps to `"a\n\nb"`. -/
theorem wrapString_embedded_newline :
    (∀ (s : List Char) (n : Int), 0 < n → '\n' ∈ s →
      Occurs ['\n', '\n'] (wrapString s n id)) ∧
    wrapString ['a', '\n', 'b'] 80 id = ['a', '\n', '\n', 'b'] := by
  constructor
  · intro s n hn hmem
    rw [wrapString, if_neg (by omega)]
    exact wrapLoop_newline n.toNat s [] hmem
  · rfl

/-- Witness for C10 at a concrete input and width. -/
theorem wrapString_embedded_newline_witness :
    Occurs ['\n', '\n'] (wrapString ['x', '\n', 'y'] 5 id) :=
  wrapString_embedded_newline.1 ['x', '\n', 'y'] 5 (by norm_num) (by simp)

/-! ### Polarity normalizer and comparator -/

/-- C4: the polarity normalizer is total and satisfies: Unknown is
returned unchanged for every type; for a type in the negative-polarity
set, True and False are flipped; for a type outside the set, every
status is returned unchanged. -/
theorem invertPolarity_spec :
    (∀ t : String, invertPolarity t "Unknown" = "Unknown") ∧
    (∀ t : String, negativePolarityNodeConditions.contains t = true →
      invertPolarity t "True" = "False" ∧ invertPolarity t "False" = "True") ∧
    (∀ (t s : String), negativePolarityNodeConditions.contains t = false →
      invertPolarity t s = s) := by
  refine ⟨fun t => ?_, fun t ht => ?_, fun t s ht => ?_⟩
  · simp [invertPolarity]
  · have ht' : t ∈ negativePolarityNodeConditions := by simpa using ht
    constructor <;> simp [invertPolarity, ht']
  · have ht' : t ∉ negativePolarityNodeConditions := by simpa using ht
    simp [invertPolarity, ht']

/-- Witness for C4: a negative-polarity type flips True/False; a type
outside the set passes any status through; Unknown is fixed. -/
theorem invertPolarity_spec_witness :
    invertPolarity "Ready" "Unknown" = "Unknown" ∧
    (invertPolarity "MemoryPressure" "True" = "False" ∧
      invertPolarity "MemoryPressure" "False" = "True") ∧
    invertPolarity "Ready" "Banana" = "Banana" :=
  ⟨invertPolarity_spec.1 "Ready",
   invertPolarity_spec.2.1 "MemoryPressure" (by decide),
   invertPolarity_spec.2.2 "Ready" "Banana" (by decide)⟩

theorem typePriority_other {t : String} (h1 : t ≠ "Ready") (h2 : t ≠ "Succeeded") :
    typePriority t = 0 := by
  simp [typePriority, h1, h2]

theorem byCondition_tier1 (i j : GenericCondition)
    (h : typePriority i.type_ ≠ typePriority j.type_) :
    byCondition i j = decide (typePriority i.type_ < typePriority j.type_) := by
  simp only [byCondition]
  rw [if_pos h]

theorem byCondition_tier2 (i j : GenericCondition)
    (h1 : typePriority i.type_ = typePriority j.type_)
    (h2 : invertPolarity i.type_ i.status ≠ invertPolarity j.type_ j.status) :
    byCondition i j = decide (statusOrder (invertPolarity i.type_ i.status) <
      statusOrder (invertPolarity j.type_ j.status)) := by
  simp only [byCondition]
  rw [if_neg (not_not_intro h1), if_pos h2]

theorem byCondition_tier3 (i j : GenericCondition)
    (h1 : typePriority i.type_ = typePriority j.type_)
    (h2 : invertPolarity i.type_ i.status = invertPolarity j.type_ j.status) :
    byCondition i j = timeAfter (freshTime i) (freshTime j) := by
  simp only [byCondition]
  rw [if_neg (not_not_intro h1), if_neg (not_not_intro h2)]

theorem timeAfter_asymm (a b : DateTime) (h : timeAfter a b = true) :
    timeAfter b a = false := by
  simp only [timeAfter] at h ⊢
  split_ifs at h ⊢ <;> simp_all <;> omega

/-! ### Ranking -/

/-- C1 (amended): the ranked output is a permutation of the input; it is
not guaranteed to keep conditions that compare equal on all three tiers
in their input order (`sort.Slice` is not a stable sort — see the
accompanying counterexample). -/
theorem sortConditions_perm (l : List GenericCondition) :
    (sortConditions l).Perm l :=
  sortSliceBy_perm byCondition l

set_option maxRecDepth 40000 in
/-- Counterexample to C1 as stated: in `tiedConditions`, the conditions
named `C0` and `C6` compare equal on all three tiers (`byCondition` is
false both ways) and `C0` precedes `C6` in the input, yet the ranked
output places `C6` first: the pivot swap of pdqsort's partitioning
reorders tied conditions once the list is longer than 12. -/
theorem sortConditions_not_stable :
    (byCondition (mkCond "C0" "False") (mkCond "C6" "False") = false ∧
     byCondition (mkCond "C6" "False") (mkCond "C0" "False") = false) ∧
    tiedConditions.map GenericCondition.type_ =
      ["C0", "C1", "C2", "C3", "C4", "C5", "C6", "C7", "C8", "C9", "C10",
       "C11", "C12"] ∧
    (sortConditions tiedConditions).map GenericCondition.type_ =
      ["C6", "C1", "C2", "C3", "C4", "C5", "C0", "C7", "C8", "C9", "C10",
       "C12", "C11"] := by
  refine ⟨⟨by decide, by decide⟩, by decide, ?_⟩
  decide

/-- C5: in any condition list holding one condition of type `Ready`
among otherwise non-priority-typed conditions, any comparator-sorted
permutation of the list (the contract of `sort.Slice`) starts with the
`Ready` condition, regardless of every condition's status; in
particular `[{ContainersReady, False}, {Ready, True}]` ranks as
`[Ready, ContainersReady]`. -/
theorem readyRanksFirst :
    (∀ (l out : List GenericCondition) (r : GenericCondition),
      r ∈ l → r.type_ = "Ready" →
      (∀ c ∈ l, c ≠ r → c.type_ ≠ "Ready" ∧ c.type_ ≠ "Succeeded") →
      out.Perm l →
      out.Pairwise (fun x y => byCondition y x = false) →
      out.head?.map GenericCondition.type_ = some "Ready") ∧
    (sortConditions [exContainersReady, exReady]).map GenericCondition.type_ =
      ["Ready", "ContainersReady"] := by
  constructor
  · intro l out r hrl hrt hothers hperm hsorted
    cases out with
    | nil =>
      exfalso
      have hl : l = [] := hperm.symm.eq_nil
      rw [hl] at hrl
      exact absurd hrl (by simp)
    | cons h t =>
      by_contra hne
      have hne' : h.type_ ≠ "Ready" := fun e => hne (by simp [e])
      have hhl : h ∈ l := hperm.subset (by simp)
      have hhr : h ≠ r := fun e => hne' (by rw [e, hrt])
      have hnp := hothers h hhl hhr
      have hlt : byCondition r h = true := by
        rw [byCondition_tier1 r h
          (by rw [hrt, typePriority_other hnp.1 hnp.2]; decide)]
        rw [hrt, typePriority_other hnp.1 hnp.2]
        decide
      have hrin : r ∈ t := by
        have hro : r ∈ h :: t := hperm.symm.subset hrl
        rcases List.mem_cons.mp hro with h1 | h1
        · exact absurd h1.symm hhr
        · exact h1
      have hfalse := (List.pairwise_cons.mp hsorted).1 r hrin
      rw [hlt] at hfalse
      exact absurd hfalse (by decide)
  · decide

/-- Witness for C5: the two-condition Tier-1 scenario, with the sorted
permutation produced by the embedded `sort.Slice` itself. -/
theorem readyRanksFirst_witness :
    (sortConditions [exContainersReady, exReady]).head?.map
      GenericCondition.type_ = some "Ready" :=
  readyRanksFirst.1 [exContainersReady, exReady]
    (sortConditions [exContainersReady, exReady]) exReady
    (by decide) (by decide) (by decide) (by decide) (by decide)

/-- C6: within equal Tier-1 buckets and for distinct semantic statuses,
the comparator decides exactly by the semantic-severity order
False(0) < Unknown(1) < True(2) of the polarity-corrected statuses; in
the Tier-2 scenario the semantic statuses of `{MemoryPressure, True}`
and `{DiskPressure, False}` become `False` and `True`, and
`MemoryPressure` ranks before `DiskPressure`. -/
theorem tier2SemanticSeverity :
    (∀ i j : GenericCondition,
      typePriority i.type_ = typePriority j.type_ →
      invertPolarity i.type_ i.status ≠ invertPolarity j.type_ j.status →
      (byCondition i j = true ↔
        statusOrder (invertPolarity i.type_ i.status) <
          statusOrder (invertPolarity j.type_ j.status))) ∧
    invertPolarity "MemoryPressure" "True" = "False" ∧
    invertPolarity "DiskPressure" "False" = "True" ∧
    (sortConditions [exMemoryPressure, exDiskPressure]).map
      GenericCondition.type_ = ["MemoryPressure", "DiskPressure"] := by
  refine ⟨fun i j h1 h2 => ?_, by decide, by decide, by decide⟩
  rw [byCondition_tier2 i j h1 h2]
  simp

/-- Witness for C6: the comparator's verdict on the Tier-2 scenario pair
coincides with the semantic-severity comparison. -/
theorem tier2SemanticSeverity_witness :
    byCondition exMemoryPressure exDiskPressure = true ↔
      statusOrder (invertPolarity exMemoryPressure.type_ exMemoryPressure.status) <
        statusOrder (invertPolarity exDiskPressure.type_ exDiskPressure.status) :=
  tier2SemanticSeverity.1 exMemoryPressure exDiskPressure (by decide) (by decide)

/-- C7 (amended): within equal Tier-1 buckets and equal semantic
statuses the comparator orders by the freshness timestamp
(`lastUpdateTime` if present, else `lastTransitionTime` if present, else
the zero-timestamp sentinel), more recent first; a sentinel-valued
condition ranks after every condition whose freshness timestamp is
later than the zero timestamp (but not necessarily after one whose
timestamp is even earlier — see the counterexample). -/
theorem tier3Recency :
    (∀ i j : GenericCondition,
      typePriority i.type_ = typePriority j.type_ →
      invertPolarity i.type_ i.status = invertPolarity j.type_ j.status →
      byCondition i j = timeAfter (freshTime i) (freshTime j)) ∧
    (∀ i j : GenericCondition,
      typePriority i.type_ = typePriority j.type_ →
      invertPolarity i.type_ i.status = invertPolarity j.type_ j.status →
      i.lastUpdateTime = none → i.lastTransitionTime = none →
      timeAfter (freshTime j) zeroTime = true →
      byCondition j i = true ∧ byCondition i j = false) := by
  constructor
  · exact fun i j h1 h2 => byCondition_tier3 i j h1 h2
  · intro i j h1 h2 hu ht hafter
    have hfi : freshTime i = zeroTime := by simp [freshTime, hu, ht]
    constructor
    · rw [byCondition_tier3 j i h1.symm h2.symm, hfi]
      exact hafter
    · rw [byCondition_tier3 i j h1 h2, hfi]
      exact timeAfter_asymm _ _ hafter

/-- Witness for C7 (amended): a condition with a 2024 update time ranks
before an otherwise equal condition with no timestamps. -/
theorem tier3Recency_witness :
    byCondition { mkCond "A" "True" with lastUpdateTime := some ⟨2024, 5, 2, 0, 0, 0⟩ }
        (mkCond "A" "True") = true ∧
      byCondition (mkCond "A" "True")
        { mkCond "A" "True" with lastUpdateTime := some ⟨2024, 5, 2, 0, 0, 0⟩ } = false :=
  tier3Recency.2 (mkCond "A" "True")
    { mkCond "A" "True" with lastUpdateTime := some ⟨2024, 5, 2, 0, 0, 0⟩ }
    (by decide) (by decide) (by decide) (by decide) (by decide)

/-- Counterexample to C7 as stated: the Tier-3 sentinel is Go's zero
time (year 1), which is not the earliest possible timestamp: against an
otherwise tied condition whose transition time is the RFC3339 instant
`0000-01-01T00:00:00Z`, the sentinel-valued condition ranks first, not
last. -/
theorem sentinelNotLast :
    exSentinel.lastUpdateTime = none ∧ exSentinel.lastTransitionTime = none ∧
    exYearZero.lastTransitionTime = some ⟨0, 1, 1, 0, 0, 0⟩ ∧
    typePriority exSentinel.type_ = typePriority exYearZero.type_ ∧
    invertPolarity exSentinel.type_ exSentinel.status =
      invertPolarity exYearZero.type_ exYearZero.status ∧
    byCondition exSentinel exYearZero = true ∧
    byCondition exYearZero exSentinel = false ∧
    sortConditions [exYearZero, exSentinel] = [exSentinel, exYearZero] := by
  decide

/-! ### Extraction -/

theorem decodeLoop_eq :
    ∀ (elems : List JValue) (i : Nat),
      decodeLoop elems i =
        match decodeAll elems with
        | some l => .ok l
        | none => .error (.malformedCondition
            (i + elems.findIdx (fun e => (decodeElem e).isNone)))
  | [], i => by simp [decodeLoop, decodeAll]
  | c :: rest, i => by
    have ih := decodeLoop_eq rest (i + 1)
    simp only [decodeLoop, decodeAll]
    rcases hc : decodeElem c with _ | gc
    · simp [hc, List.findIdx_cons]
    · rw [ih]
      rcases hr : decodeAll rest with _ | l
      · simp [hc, hr, List.findIdx_cons]
        omega
      · simp [hc, hr]

/-- C9 (amended): the extractor fails with `ConditionsNotFound` exactly
when the `status.conditions` path is reported absent; it fails with the
index-free accessor error exactly when an intermediate value on the path
is not a mapping or the value at the path is not a list; and when a
conditions list is found, it returns all decoded conditions in input
order, or fails with `MalformedCondition{i}` for the first index `i`
whose element is not a mapping or does not decode. -/
theorem extractConditions_contract (obj : List (String × JValue)) :
    (extractConditions obj = .error .conditionsNotFound ↔
      nestedSlice obj ["status", "conditions"] = .notFound) ∧
    (extractConditions obj = .error .accessorError ↔
      nestedSlice obj ["status", "conditions"] = .err) ∧
    (∀ elems, nestedSlice obj ["status", "conditions"] = .found elems →
      extractConditions obj =
        match decodeAll elems with
        | some l => .ok l
        | none => .error (.malformedCondition
            (elems.findIdx (fun e => (decodeElem e).isNone)))) := by
  unfold extractConditions
  rcases hns : nestedSlice obj ["status", "conditions"] with elems | _ | _
  · refine ⟨?_, ?_, fun elems' helems => ?_⟩
    · show decodeLoop elems 0 = Except.error ExtractError.conditionsNotFound ↔ _
      rw [decodeLoop_eq]
      constructor
      · intro h
        rcases hm : decodeAll elems with _ | l <;> simp [hm] at h
      · intro h
        exact absurd h (by simp)
    · show decodeLoop elems 0 = Except.error ExtractError.accessorError ↔ _
      rw [decodeLoop_eq]
      constructor
      · intro h
        rcases hm : decodeAll elems with _ | l <;> simp [hm] at h
      · intro h
        exact absurd h (by simp)
    · have he : elems = elems' := by injection helems
      subst he
      show decodeLoop elems 0 = _
      rw [decodeLoop_eq]
      rcases hm : decodeAll elems with _ | l <;> simp [hm]
  · simp
  · simp

/-- Witness for C9 (amended): an object whose conditions list has a
well-formed first element and a non-mapping second element fails with
`MalformedCondition{1}`. -/
theorem extractConditions_contract_witness :
    extractConditions
        [("status", .obj [("conditions",
          .arr [.obj [("type", .str "Ready")], .num 3])])] =
      .error (.malformedCondition 1) := by
  have h := (extractConditions_contract
    [("status", .obj [("conditions",
      .arr [.obj [("type", .str "Ready")], .num 3])])]).2.2
    [.obj [("type", .str "Ready")], .num 3] rfl
  rw [h]
  rfl

/-- Counterexample to C9 as stated: when `status.conditions` is present
but not a list, and when `status` itself is not a mapping, extraction
fails with the index-free accessor error — not with
`MalformedCondition{index}` (first case) and not with
`ConditionsNotFound` (second case, where the path cannot be traversed). -/
theorem extractConditions_notAList_error :
    extractConditions objConditionsNotAList = .error .accessorError ∧
    extractConditions objStatusNotAMap = .error .accessorError :=
  ⟨rfl, rfl⟩

/-- C3 (amended): status is not validated at decode time: a condition
whose raw `status` is any JSON string — including strings outside the
three enum values — decodes successfully, and the extractor returns a
`GenericCondition` carrying that status verbatim. -/
theorem statusNotValidated (s : String) :
    extractConditions (objWithStatus s) =
      .ok [⟨"Foo", s, "", "", none, none, none, 0⟩] := rfl

/-- Counterexample to C3 as stated: the raw status `"Bananas"` is not
one of the three enum values, yet extraction succeeds and produces a
condition with this fourth status value instead of failing with
`MalformedCondition`. -/
theorem statusBananasAccepted :
    extractConditions (objWithStatus "Bananas") =
      .ok [⟨"Foo", "Bananas", "", "", none, none, none, 0⟩] ∧
    ("Bananas" ≠ "True" ∧ "Bananas" ≠ "False" ∧ "Bananas" ≠ "Unknown") :=
  ⟨rfl, by decide⟩

/-! ### Formatting -/

theorem occurs_of_decomposed (blk l pre post : List Char)
    (h : l = pre ++ (blk ++ '\n' :: post)) :
    Occurs blk (trimSuffixNewline l) := by
  subst h
  rcases List.eq_nil_or_concat post with hpost | ⟨post', last, hpost⟩
  · subst hpost
    have hl : pre ++ (blk ++ ['\n']) = (pre ++ blk) ++ ['\n'] := by simp
    rw [hl, trimSuffixNewline, if_pos (by rw [List.getLast?_concat]),
      List.dropLast_concat]
    exact ⟨pre, [], by simp⟩
  · subst hpost
    simp only [List.concat_eq_append]
    rw [trimSuffixNewline]
    split
    · have hl : pre ++ (blk ++ '\n' :: (post' ++ [last])) =
          (pre ++ (blk ++ '\n' :: post')) ++ [last] := by simp
      rw [hl, List.dropLast_concat]
      exact ⟨pre, '\n' :: post', by simp⟩
    · exact ⟨pre, '\n' :: (post' ++ [last]), by simp⟩

/-- C8 (amended): for every condition with a non-empty message, every
colorization, and every rendering of the display collaborators, the
detail block contains the wrapped, colorized message block — it is
emitted bare (followed by a newline), not enclosed in parentheses (see
the accompanying counterexample). -/
theorem messageBlockInDetails (env : RenderEnv) (colorize : List Char → List Char)
    (cond : GenericCondition) (hmsg : cond.message ≠ "") :
    Occurs (colorize (wrapString cond.message.toList 80 colorize))
      (formatConditionDetails env colorize cond) := by
  obtain ⟨ty, st, re, me, lut, ltt, lht, og⟩ := cond
  have hmsg' : me ≠ "" := hmsg
  simp only [formatConditionDetails]
  rw [if_pos hmsg']
  rcases ltt with _ | t1 <;> rcases lut with _ | t2 <;> rcases lht with _ | t3
  · exact occurs_of_decomposed _ _
      (if re ≠ "" then colorize (env.bold re.toList) ++ ['\n'] else [])
      [] (by simp)
  · exact occurs_of_decomposed _ _
      (if re ≠ "" then colorize (env.bold re.toList) ++ ['\n'] else [])
      ("Last Heartbeat: ".toList ++ expressTime env t3 ++ ['\n']) (by simp)
  · exact occurs_of_decomposed _ _
      (if re ≠ "" then colorize (env.bold re.toList) ++ ['\n'] else [])
      ("Last Update: ".toList ++ expressTime env t2 ++ ['\n']) (by simp)
  · exact occurs_of_decomposed _ _
      (if re ≠ "" then colorize (env.bold re.toList) ++ ['\n'] else [])
      ("Last Update: ".toList ++ expressTime env t2 ++ ['\n'] ++
        ("Last Heartbeat: ".toList ++ expressTime env t3 ++ ['\n'])) (by simp)
  · exact occurs_of_decomposed _ _
      (if re ≠ "" then colorize (env.bold re.toList) ++ ['\n'] else [])
      ("Last Transition: ".toList ++ expressTime env t1 ++ ['\n']) (by simp)
  · exact occurs_of_decomposed _ _
      (if re ≠ "" then colorize (env.bold re.toList) ++ ['\n'] else [])
      ("Last Transition: ".toList ++ expressTime env t1 ++ ['\n'] ++
        ("Last Heartbeat: ".toList ++ expressTime env t3 ++ ['\n'])) (by simp)
  · exact occurs_of_decomposed _ _
      (if re ≠ "" then colorize (env.bold re.toList) ++ ['\n'] else [])
      ("Last Transition: ".toList ++ expressTime env t1 ++ ['\n'] ++
        ("Last Update: ".toList ++ expressTime env t2 ++ ['\n'])) (by simp)
  · exact occurs_of_decomposed _ _
      (if re ≠ "" then colorize (env.bold re.toList) ++ ['\n'] else [])
      ("Last Transition: ".toList ++ expressTime env t1 ++ ['\n'] ++
        ("Last Update: ".toList ++ expressTime env t2 ++ ['\n']) ++
        ("Last Heartbeat: ".toList ++ expressTime env t3 ++ ['\n'])) (by simp)

/-- Witness for C8 (amended): the wrapped message of `condMsgHi` occurs
in its formatted details. -/
theorem messageBlockInDetails_witness :
    Occurs (id (wrapString condMsgHi.message.toList 80 id))
      (formatConditionDetails idEnv id condMsgHi) :=
  messageBlockInDetails idEnv id condMsgHi (by decide)

/-- Counterexample to C8 as stated: the details of a condition whose
message is `hi` are exactly the characters `hi` — the wrapped, colorized
message block is not enclosed in parentheses (the output contains no
`(hi)` segment; parentheses appear only around the raw status under the
type column and around absolute timestamps). -/
theorem messageNotParenthesized :
    formatConditionDetails idEnv id condMsgHi = ['h', 'i'] ∧
    ¬ Occurs ('(' :: id (wrapString condMsgHi.message.toList 80 id) ++ [')'])
      (formatConditionDetails idEnv id condMsgHi) := by
  have hval : formatConditionDetails idEnv id condMsgHi = ['h', 'i'] := rfl
  refine ⟨hval, ?_⟩
  rintro ⟨pre, post, h⟩
  rw [hval] at h
  have hw : (wrapString condMsgHi.message.data 80 id).length = 2 := rfl
  have hlen := congrArg List.length h
  simp [hw] at hlen
  omega

end KubectlCond
